import Mathlib

/-!
Verification of the audo-slide template replication engine.

Shallow embedding of the repository sources:
  src/utils/text_utils.py   (normalize_key, set_text_preserve_style)
  src/utils/image_utils.py  (fill_picture, IMAGE_EXTENSIONS)
  src/utils/slide_utils.py  (relationship remapper, duplicate_slide)
  src/core/template_handler.py (fill_template_with_row, backup/restore)
  src/core/ppt_builder.py   (build_ppt_from_excel)

Python strings are modelled as Lean `String` (lists of characters);
in-place mutation of the pptx object tree is modelled by explicit
state passing; fallible paths return `Except`.
-/

set_option maxHeartbeats 1000000

namespace AutoSlide

/-! ## src/utils/text_utils.py : normalize_key (lines 9-64)

The Python pipeline is, in order:
  1. None maps to the empty string
  2. remove U+200B, U+FEFF, U+2060  (three successive single-char replaces)
  3. replace U+00A0 by a space
  4. replace tab by a space
  5. remove CRLF, then LF, then CR   (line breaks removed, not spaced)
  6. s.strip()                       (Python whitespace at both ends)
  7. the loop: while a double space occurs, replace double by single space
-/

/-- The set of characters Python's str.strip() removes (characters for which
str.isspace() is True): ASCII whitespace, the C1 separators, NBSP and the
Unicode space/line/paragraph separators. -/
def pySpaceChars : List Char :=
  [' ', '\t', '\n', '\r', '\x0b', '\x0c',
   '\x1c', '\x1d', '\x1e', '\x1f', '\x85', '\xa0',
   '\u1680', '\u2000', '\u2001', '\u2002', '\u2003', '\u2004', '\u2005',
   '\u2006', '\u2007', '\u2008', '\u2009', '\u200a',
   '\u2028', '\u2029', '\u202f', '\u205f', '\u3000']

def isPySpace (c : Char) : Bool := pySpaceChars.contains c

/-- Lines 45-46: the loop over the three invisible characters
(zero-width space U+200B, BOM U+FEFF, word joiner U+2060), each removed by a
single-character replace with the empty string. -/
def removeInvisible (l : List Char) : List Char :=
  ((l.filter (fun c => c != '\u200b')).filter
      (fun c => c != '\ufeff')).filter (fun c => c != '\u2060')

/-- Line 49: non-breaking space replaced by a plain space. -/
def nbspToSpace (l : List Char) : List Char :=
  l.map (fun c => if c = '\xa0' then ' ' else c)

/-- Line 52: tab replaced by a plain space. -/
def tabToSpace (l : List Char) : List Char :=
  l.map (fun c => if c = '\t' then ' ' else c)

/-- Line 55, first replace: removal of the two-character pattern CR LF,
scanning left to right over non-overlapping occurrences (after a removal the
scan resumes after the removed pair, as Python's str.replace does). -/
def replaceCRLF : List Char → List Char
  | [] => []
  | [c] => [c]
  | c1 :: c2 :: rest =>
      if c1 = '\r' ∧ c2 = '\n' then replaceCRLF rest
      else c1 :: replaceCRLF (c2 :: rest)

/-- Line 55: remove CRLF, then all LF, then all CR. -/
def stripLineBreaks (l : List Char) : List Char :=
  ((replaceCRLF l).filter (fun c => c != '\n')).filter (fun c => c != '\r')

/-- Line 58, Python s.strip(): drop leading and trailing whitespace. -/
def pyStrip (l : List Char) : List Char :=
  ((l.dropWhile isPySpace).reverse.dropWhile isPySpace).reverse

/-- Does the string contain two adjacent spaces? (the loop condition of
lines 61-62). -/
def hasDoubleSpace : List Char → Bool
  | [] => false
  | [_] => false
  | c1 :: c2 :: rest =>
      if c1 = ' ' ∧ c2 = ' ' then true else hasDoubleSpace (c2 :: rest)

/-- One pass of replacing each non-overlapping double space by a single
space, scanning left to right (one execution of line 62; the scan resumes
after an emitted replacement, as Python's str.replace does). -/
def replacePass : List Char → List Char
  | [] => []
  | [c] => [c]
  | c1 :: c2 :: rest =>
      if c1 = ' ' ∧ c2 = ' ' then ' ' :: replacePass rest
      else c1 :: replacePass (c2 :: rest)

/-- The while loop of lines 61-62, with an explicit fuel bound: each pass
strictly shortens the string (replacePass_length_lt below), so a fuel of the
string length is enough for the loop to reach its exit condition
(collapseFuel_hasDoubleSpace below shows the exit condition is reached). -/
def collapseFuel : Nat → List Char → List Char
  | 0, l => l
  | Nat.succ f, l => if hasDoubleSpace l then collapseFuel f (replacePass l) else l

/-- The space-collapsing while loop of normalize_key. -/
def collapseTop (l : List Char) : List Char := collapseFuel l.length l

/-- src/utils/text_utils.py normalize_key (lines 9-64).  `none` models the
Python None argument (line 36); for a str argument, str(s) is s itself
(line 39). -/
def normalize_key : Option String → String
  | none => ""
  | some t =>
      String.mk (collapseTop (pyStrip (stripLineBreaks
        (tabToSpace (nbspToSpace (removeInvisible t.data))))))

/-! ### Supporting lemmas for normalize_key -/

theorem replaceCRLF_sublist : ∀ l : List Char, (replaceCRLF l).Sublist l := by
  intro l
  induction l using replaceCRLF.induct with
  | case1 => exact .refl _
  | case2 c => exact .refl _
  | case3 c1 c2 rest h ih =>
      rw [replaceCRLF, if_pos h]
      exact ih.trans ((List.sublist_cons_self _ _).trans (List.sublist_cons_self _ _))
  | case4 c1 c2 rest h ih =>
      rw [replaceCRLF, if_neg h]
      exact ih.cons₂ c1

theorem replaceCRLF_eq_self : ∀ l : List Char, '\r' ∉ l → replaceCRLF l = l := by
  intro l hl
  induction l using replaceCRLF.induct with
  | case1 => rfl
  | case2 c => rfl
  | case3 c1 c2 rest h ih =>
      exact absurd (h.1 ▸ List.mem_cons_self _ _) hl
  | case4 c1 c2 rest h ih =>
      rw [replaceCRLF, if_neg h, ih (fun hm => hl (List.mem_cons_of_mem _ hm))]

theorem replacePass_sublist : ∀ l : List Char, (replacePass l).Sublist l := by
  intro l
  induction l using replacePass.induct with
  | case1 => exact .refl _
  | case2 c => exact .refl _
  | case3 c1 c2 rest h ih =>
      obtain ⟨h1, h2⟩ := h
      subst h1; subst h2
      rw [replacePass, if_pos ⟨rfl, rfl⟩]
      exact (ih.trans (List.sublist_cons_self _ _)).cons₂ _
  | case4 c1 c2 rest h ih =>
      rw [replacePass, if_neg h]
      exact ih.cons₂ c1

theorem replacePass_length_lt :
    ∀ l : List Char, hasDoubleSpace l = true → (replacePass l).length < l.length := by
  intro l
  induction l using replacePass.induct with
  | case1 => intro h; simp [hasDoubleSpace] at h
  | case2 c => intro h; simp [hasDoubleSpace] at h
  | case3 c1 c2 rest h ih =>
      intro _
      rw [replacePass, if_pos h]
      have := (replacePass_sublist rest).length_le
      simp only [List.length_cons]
      omega
  | case4 c1 c2 rest h ih =>
      intro hds
      rw [hasDoubleSpace, if_neg h] at hds
      rw [replacePass, if_neg h]
      simpa using ih hds

theorem replacePass_head? : ∀ l : List Char, (replacePass l).head? = l.head? := by
  intro l
  induction l using replacePass.induct with
  | case1 => rfl
  | case2 c => rfl
  | case3 c1 c2 rest h ih => rw [replacePass, if_pos h]; simp [h.1]
  | case4 c1 c2 rest h ih => rw [replacePass, if_neg h]; rfl

theorem replacePass_ne_nil : ∀ l : List Char, l ≠ [] → replacePass l ≠ [] := by
  intro l hl
  induction l using replacePass.induct with
  | case1 => exact absurd rfl hl
  | case2 c => intro h; exact absurd h (by rw [replacePass]; simp)
  | case3 c1 c2 rest h ih => rw [replacePass, if_pos h]; simp
  | case4 c1 c2 rest h ih => rw [replacePass, if_neg h]; simp

theorem replacePass_getLast? : ∀ l : List Char, (replacePass l).getLast? = l.getLast? := by
  intro l
  induction l using replacePass.induct with
  | case1 => rfl
  | case2 c => rfl
  | case3 c1 c2 rest h ih =>
      rw [replacePass, if_pos h]
      rcases rest with _ | ⟨d, ds⟩
      · simp [replacePass, h.1, h.2]
      · have hne : replacePass (d :: ds) ≠ [] := replacePass_ne_nil _ (by simp)
        rcases he : replacePass (d :: ds) with _ | ⟨e, es⟩
        · exact absurd he hne
        · rw [he] at ih
          rw [List.getLast?_cons_cons]
          exact ih
  | case4 c1 c2 rest h ih =>
      rw [replacePass, if_neg h]
      have hne : replacePass (c2 :: rest) ≠ [] := replacePass_ne_nil _ (by simp)
      rcases he : replacePass (c2 :: rest) with _ | ⟨e, es⟩
      · exact absurd he hne
      · rw [he] at ih
        rw [List.getLast?_cons_cons]
        exact ih

theorem collapseFuel_sublist : ∀ (f : Nat) (l : List Char), (collapseFuel f l).Sublist l := by
  intro f
  induction f with
  | zero => intro l; exact .refl _
  | succ f ih =>
      intro l
      rw [collapseFuel]
      by_cases h : hasDoubleSpace l
      · rw [if_pos h]; exact (ih _).trans (replacePass_sublist l)
      · rw [if_neg h]

theorem collapseFuel_head? : ∀ (f : Nat) (l : List Char), (collapseFuel f l).head? = l.head? := by
  intro f
  induction f with
  | zero => intro l; rfl
  | succ f ih =>
      intro l
      rw [collapseFuel]
      by_cases h : hasDoubleSpace l
      · rw [if_pos h, ih, replacePass_head?]
      · rw [if_neg h]

theorem collapseFuel_getLast? :
    ∀ (f : Nat) (l : List Char), (collapseFuel f l).getLast? = l.getLast? := by
  intro f
  induction f with
  | zero => intro l; rfl
  | succ f ih =>
      intro l
      rw [collapseFuel]
      by_cases h : hasDoubleSpace l
      · rw [if_pos h, ih, replacePass_getLast?]
      · rw [if_neg h]

/-- The fuel of collapseTop suffices: the loop reaches its exit condition,
so the result contains no double space. -/
theorem collapseFuel_hasDoubleSpace :
    ∀ (f : Nat) (l : List Char), l.length ≤ f → hasDoubleSpace (collapseFuel f l) = false := by
  intro f
  induction f with
  | zero =>
      intro l hl
      have : l = [] := List.length_eq_zero.mp (Nat.le_zero.mp hl)
      subst this; rfl
  | succ f ih =>
      intro l hl
      rw [collapseFuel]
      by_cases h : hasDoubleSpace l
      · rw [if_pos h]
        exact ih _ (by have := replacePass_length_lt l h; omega)
      · rw [if_neg h]
        exact Bool.not_eq_true _ ▸ (by simpa using h)

theorem collapseFuel_of_noDouble :
    ∀ (f : Nat) (l : List Char), hasDoubleSpace l = false → collapseFuel f l = l := by
  intro f l h
  cases f with
  | zero => rfl
  | succ f => rw [collapseFuel, if_neg (by simp [h])]

theorem dropWhile_head?_false {p : Char → Bool} :
    ∀ (l : List Char) (c : Char), (l.dropWhile p).head? = some c → p c = false := by
  intro l
  induction l with
  | nil => intro c h; simp [List.dropWhile] at h
  | cons a l ih =>
      intro c h
      by_cases ha : p a
      · rw [List.dropWhile_cons_of_pos ha] at h; exact ih c h
      · rw [List.dropWhile_cons_of_neg ha] at h
        simp only [List.head?_cons, Option.some.injEq] at h
        subst h
        exact Bool.not_eq_true _ ▸ (by simpa using ha)

theorem dropWhile_getLast? {p : Char → Bool} :
    ∀ l : List Char, l.dropWhile p ≠ [] → (l.dropWhile p).getLast? = l.getLast? := by
  intro l
  induction l with
  | nil => intro h; simp [List.dropWhile] at h
  | cons a l ih =>
      intro h
      by_cases ha : p a
      · rw [List.dropWhile_cons_of_pos ha] at h ⊢
        have hl : l ≠ [] := by
          intro he; subst he; simp [List.dropWhile] at h
        rcases hl' : l with _ | ⟨b, bs⟩
        · exact absurd hl' hl
        · rw [← hl', ih (hl' ▸ h), hl', List.getLast?_cons_cons]
      · rw [List.dropWhile_cons_of_neg ha]

theorem dropWhile_eq_self_of_head {p : Char → Bool} :
    ∀ l : List Char, (∀ c, l.head? = some c → p c = false) → l.dropWhile p = l := by
  intro l h
  cases l with
  | nil => rfl
  | cons a l =>
      have := h a rfl
      rw [List.dropWhile_cons_of_neg (by simp [this])]

theorem pyStrip_sublist (l : List Char) : (pyStrip l).Sublist l := by
  unfold pyStrip
  have h1 : (l.dropWhile isPySpace).Sublist l := List.dropWhile_sublist _
  have h2 : ((l.dropWhile isPySpace).reverse.dropWhile isPySpace).Sublist
      (l.dropWhile isPySpace).reverse := List.dropWhile_sublist _
  have h3 := h2.reverse
  rw [List.reverse_reverse] at h3
  exact h3.trans h1

theorem pyStrip_head?_false (l : List Char) (c : Char) :
    (pyStrip l).head? = some c → isPySpace c = false := by
  intro h
  unfold pyStrip at h
  rw [List.head?_reverse] at h
  have hne : (l.dropWhile isPySpace).reverse.dropWhile isPySpace ≠ [] := by
    intro he; rw [he] at h; simp at h
  rw [dropWhile_getLast? _ hne, List.getLast?_reverse] at h
  exact dropWhile_head?_false l c h

theorem pyStrip_getLast?_false (l : List Char) (c : Char) :
    (pyStrip l).getLast? = some c → isPySpace c = false := by
  intro h
  unfold pyStrip at h
  rw [List.getLast?_reverse] at h
  exact dropWhile_head?_false _ c h

theorem pyStrip_eq_self (l : List Char)
    (hh : ∀ c, l.head? = some c → isPySpace c = false)
    (hl : ∀ c, l.getLast? = some c → isPySpace c = false) : pyStrip l = l := by
  unfold pyStrip
  rw [dropWhile_eq_self_of_head l hh]
  rw [dropWhile_eq_self_of_head l.reverse (fun c hc => hl c (by rwa [List.head?_reverse] at hc))]
  exact List.reverse_reverse l

theorem list_map_eq_self {l : List Char} {f : Char → Char} (h : ∀ a ∈ l, f a = a) :
    l.map f = l := by
  have := List.map_congr_left (g := id) (fun a ha => h a ha)
  simpa using this

/-- Character-level facts about the output of normalize_key: every output
character is a space or a character of the input, and none of the seven
removed/translated characters survives. -/
theorem normalize_key_mem (t : String) (c : Char)
    (hc : c ∈ (normalize_key (some t)).data) :
    (c = ' ' ∨ c ∈ t.data) ∧
      c ≠ '\u200b' ∧ c ≠ '\ufeff' ∧ c ≠ '\u2060' ∧
      c ≠ '\xa0' ∧ c ≠ '\t' ∧ c ≠ '\n' ∧ c ≠ '\r' := by
  have hc1 : c ∈ pyStrip (stripLineBreaks (tabToSpace (nbspToSpace (removeInvisible t.data)))) :=
    (collapseFuel_sublist _ _).subset hc
  have hc2 := (pyStrip_sublist _).subset hc1
  unfold stripLineBreaks at hc2
  have h3 := List.mem_filter.mp hc2
  have hr : c ≠ '\r' := by simpa using h3.2
  have h4 := List.mem_filter.mp h3.1
  have hn : c ≠ '\n' := by simpa using h4.2
  have hc5 : c ∈ tabToSpace (nbspToSpace (removeInvisible t.data)) :=
    (replaceCRLF_sublist _).subset h4.1
  obtain ⟨b, hb, hbc⟩ := List.mem_map.mp hc5
  obtain ⟨a, ha, hab⟩ := List.mem_map.mp hb
  unfold removeInvisible at ha
  have ha3 := List.mem_filter.mp ha
  have h2060 : a ≠ '\u2060' := by simpa using ha3.2
  have ha4 := List.mem_filter.mp ha3.1
  have hfeff : a ≠ '\ufeff' := by simpa using ha4.2
  have ha5 := List.mem_filter.mp ha4.1
  have h200b : a ≠ '\u200b' := by simpa using ha5.2
  have hat : a ∈ t.data := ha5.1
  have hcval : c = ' ' ∨ (c = a ∧ a ≠ '\t' ∧ a ≠ '\xa0') := by
    subst hbc
    subst hab
    by_cases hna : a = '\xa0'
    · subst hna; left; decide
    · by_cases hta : a = '\t'
      · subst hta; left; decide
      · right
        refine ⟨?_, hta, hna⟩
        simp [if_neg hna, if_neg hta]
  rcases hcval with hsp | ⟨hca, hta, hna⟩
  · subst hsp
    exact ⟨Or.inl rfl, by decide, by decide, by decide, by decide, by decide, hn, hr⟩
  · subst hca
    exact ⟨Or.inr hat, h200b, hfeff, h2060, hna, hta, hn, hr⟩

theorem normalize_key_head?_false (t : String) (c : Char)
    (h : (normalize_key (some t)).data.head? = some c) : isPySpace c = false := by
  have h' : (pyStrip (stripLineBreaks (tabToSpace (nbspToSpace
      (removeInvisible t.data))))).head? = some c := by
    rw [← collapseFuel_head?
      (pyStrip (stripLineBreaks (tabToSpace (nbspToSpace (removeInvisible t.data))))).length]
    exact h
  exact pyStrip_head?_false _ _ h'

theorem normalize_key_getLast?_false (t : String) (c : Char)
    (h : (normalize_key (some t)).data.getLast? = some c) : isPySpace c = false := by
  have h' : (pyStrip (stripLineBreaks (tabToSpace (nbspToSpace
      (removeInvisible t.data))))).getLast? = some c := by
    rw [← collapseFuel_getLast?
      (pyStrip (stripLineBreaks (tabToSpace (nbspToSpace (removeInvisible t.data))))).length]
    exact h
  exact pyStrip_getLast?_false _ _ h'

theorem normalize_key_noDouble (t : String) :
    hasDoubleSpace (normalize_key (some t)).data = false :=
  collapseFuel_hasDoubleSpace _ _ (Nat.le_refl _)

/-- C5: for every input string (with None mapping to the empty string),
normalize_key removes the zero-width-space, BOM and word-joiner characters,
converts NBSP and tab to plain spaces, strips CR/LF/CRLF entirely (without
inserting a space), trims leading and trailing whitespace, collapses runs of
spaces, and never changes the case of a letter (every non-space output
character is a character of the input; "  Name\n" normalizes to "Name" while
" name" stays "name", not "Name"). -/
theorem normalize_key_claim :
    (∀ s : String, ∀ c ∈ (normalize_key (some s)).data,
        (c ∉ (['\u200b', '\ufeff', '\u2060', '\xa0', '\t', '\n', '\r'] : List Char)) ∧
        (c = ' ' ∨ c ∈ s.data)) ∧
    (∀ s : String, ∀ c, (normalize_key (some s)).data.head? = some c → isPySpace c = false) ∧
    (∀ s : String, ∀ c, (normalize_key (some s)).data.getLast? = some c → isPySpace c = false) ∧
    (∀ s : String, hasDoubleSpace (normalize_key (some s)).data = false) ∧
    normalize_key none = "" ∧
    normalize_key (some "  Name\n") = "Name" ∧
    normalize_key (some " name") = "name" ∧
    normalize_key (some " name") ≠ "Name" ∧
    normalize_key (some "a\xa0b") = "a b" ∧
    normalize_key (some "a\tb") = "a b" ∧
    normalize_key (some "a\r\nb") = "ab" := by
  refine ⟨?_, normalize_key_head?_false, normalize_key_getLast?_false,
    normalize_key_noDouble, rfl, by decide, by decide, by decide, by decide, by decide, by decide⟩
  intro s c hc
  have h := normalize_key_mem s c hc
  refine ⟨?_, h.1⟩
  simp only [List.mem_cons, List.not_mem_nil, or_false]
  push_neg
  exact ⟨h.2.1, h.2.2.1, h.2.2.2.1, h.2.2.2.2.1, h.2.2.2.2.2.1, h.2.2.2.2.2.2.1,
    h.2.2.2.2.2.2.2⟩

theorem normalize_key_claim_witness :
    (('N' : Char) ∉ (['\u200b', '\ufeff', '\u2060', '\xa0', '\t', '\n', '\r'] : List Char)) ∧
      ('N' = ' ' ∨ 'N' ∈ "  Name\n".data) :=
  normalize_key_claim.1 "  Name\n" 'N' (by decide)

/-- C10: normalize_key is idempotent - applying it to an already-normalized
string returns the string unchanged, so canonical labels compare stably. -/
theorem normalize_key_idem (s : String) :
    normalize_key (some (normalize_key (some s))) = normalize_key (some s) := by
  have hmem := fun c hc => normalize_key_mem s c hc
  have e1 : (normalize_key (some s)).data.filter (fun c => c != '\u200b')
      = (normalize_key (some s)).data :=
    List.filter_eq_self.mpr (fun a ha => by simpa using (hmem a ha).2.1)
  have e2 : (normalize_key (some s)).data.filter (fun c => c != '\ufeff')
      = (normalize_key (some s)).data :=
    List.filter_eq_self.mpr (fun a ha => by simpa using (hmem a ha).2.2.1)
  have e3 : (normalize_key (some s)).data.filter (fun c => c != '\u2060')
      = (normalize_key (some s)).data :=
    List.filter_eq_self.mpr (fun a ha => by simpa using (hmem a ha).2.2.2.1)
  have h1 : removeInvisible (normalize_key (some s)).data = (normalize_key (some s)).data := by
    unfold removeInvisible
    rw [e1, e2, e3]
  have h2 : nbspToSpace (normalize_key (some s)).data = (normalize_key (some s)).data :=
    list_map_eq_self (fun a ha => if_neg (hmem a ha).2.2.2.2.1)
  have h3 : tabToSpace (normalize_key (some s)).data = (normalize_key (some s)).data :=
    list_map_eq_self (fun a ha => if_neg (hmem a ha).2.2.2.2.2.1)
  have h4 : replaceCRLF (normalize_key (some s)).data = (normalize_key (some s)).data :=
    replaceCRLF_eq_self _ (fun hr => ((hmem _ hr).2.2.2.2.2.2.2) rfl)
  have e4 : (normalize_key (some s)).data.filter (fun c => c != '\n')
      = (normalize_key (some s)).data :=
    List.filter_eq_self.mpr (fun a ha => by simpa using (hmem a ha).2.2.2.2.2.2.1)
  have e5 : (normalize_key (some s)).data.filter (fun c => c != '\r')
      = (normalize_key (some s)).data :=
    List.filter_eq_self.mpr (fun a ha => by simpa using (hmem a ha).2.2.2.2.2.2.2)
  have h5 : stripLineBreaks (normalize_key (some s)).data = (normalize_key (some s)).data := by
    unfold stripLineBreaks
    rw [h4, e4, e5]
  have h6 : pyStrip (normalize_key (some s)).data = (normalize_key (some s)).data :=
    pyStrip_eq_self _ (normalize_key_head?_false s) (normalize_key_getLast?_false s)
  have h7 : collapseTop (normalize_key (some s)).data = (normalize_key (some s)).data :=
    collapseFuel_of_noDouble _ _ (normalize_key_noDouble s)
  show String.mk (collapseTop (pyStrip (stripLineBreaks (tabToSpace (nbspToSpace
      (removeInvisible (normalize_key (some s)).data)))))) = normalize_key (some s)
  rw [h1, h2, h3, h5, h6, h7]

/-! ## Values flowing out of a tabular row, and the fill routing
(src/core/template_handler.py lines 110-141, src/utils/image_utils.py 72-75)

A cell value reaching fill_template_with_row is None, a float NaN, or a
string (the spec data model says Row values are strings possibly
representing missing). -/

inductive PyValue where
  | pynone : PyValue
  | pynan : PyValue
  | pystr (s : String) : PyValue
deriving DecidableEq

/-- Python str() on such a value (str(None) is "None", str(float nan) is
"nan", str of a str is itself). -/
def pyStr : PyValue → String
  | .pynone => "None"
  | .pynan => "nan"
  | .pystr s => s

/-- Python str.lower restricted to ASCII letters (all comparisons made by the
code are against pure-ASCII strings: "nan", "_IMG", the image extensions). -/
def asciiLower (s : String) : String := String.mk (s.data.map Char.toLower)

/-- Python str.upper restricted to ASCII letters. -/
def asciiUpper (s : String) : String := String.mk (s.data.map Char.toUpper)

/-- Python s.strip() at the String level. -/
def pyStripStr (s : String) : String := String.mk (pyStrip s.data)

/-- Python s.endswith(t). -/
def pyEndsWith (s t : String) : Bool := t.data.isSuffixOf s.data

/-- src/utils/image_utils.py lines 72-75: the recognized image-file
extensions. -/
def IMAGE_EXTENSIONS : List String :=
  [".png", ".jpg", ".jpeg", ".gif", ".bmp", ".tif", ".tiff", ".webp"]

/-- The three things fill_template_with_row does with a matched value:
write empty text, treat as picture path, or write plain text. -/
inductive FillAction where
  | writeEmpty
  | picture (path : String)
  | plainText (s : String)
deriving DecidableEq

/-- Line 114: `val is None or (isinstance(val, str) and val.lower() == 'nan')`.
A float NaN is not a str instance, so it fails this test. -/
def isNoneOrNanStr : PyValue → Bool
  | .pynone => true
  | .pynan => false
  | .pystr s => asciiLower s == "nan"

/-- The routing decision of template_handler.py lines 110-141: None/"nan"
writes empty; then sval = str(val).strip(); empty sval writes empty; then
key.upper().endswith('_IMG') or sval.lower().endswith(IMAGE_EXTENSIONS)
routes to picture; otherwise plain text. -/
def routeFill (key : String) (val : PyValue) : FillAction :=
  if isNoneOrNanStr val then .writeEmpty
  else
    let sval := pyStripStr (pyStr val)
    if sval = "" then .writeEmpty
    else if pyEndsWith (asciiUpper key) "_IMG"
        || IMAGE_EXTENSIONS.any (fun e => pyEndsWith (asciiLower sval) e) then
      .picture sval
    else .plainText sval

/-- C4: the fill routing order: a missing value (None) or the
case-insensitive literal string "nan" is written as empty text; otherwise
the value is stringified and trimmed and, if empty, written as empty text;
otherwise, if the key ends with the case-insensitive suffix _IMG or the
trimmed value ends with a recognized image extension (case-insensitive),
it is treated as a picture path; otherwise as plain text. -/
theorem routeFill_claim :
    ∀ (key : String) (val : PyValue),
      (isNoneOrNanStr val = true ↔
        (val = .pynone ∨ ∃ s, val = .pystr s ∧ asciiLower s = "nan")) ∧
      ((val = .pynone ∨ ∃ s, val = .pystr s ∧ asciiLower s = "nan") →
        routeFill key val = .writeEmpty) ∧
      (¬(val = .pynone ∨ ∃ s, val = .pystr s ∧ asciiLower s = "nan") →
        (pyStripStr (pyStr val) = "" → routeFill key val = .writeEmpty) ∧
        (pyStripStr (pyStr val) ≠ "" →
          ((pyEndsWith (asciiUpper key) "_IMG" = true ∨
              ∃ e ∈ IMAGE_EXTENSIONS,
                pyEndsWith (asciiLower (pyStripStr (pyStr val))) e = true) →
            routeFill key val = .picture (pyStripStr (pyStr val))) ∧
          (¬(pyEndsWith (asciiUpper key) "_IMG" = true ∨
              ∃ e ∈ IMAGE_EXTENSIONS,
                pyEndsWith (asciiLower (pyStripStr (pyStr val))) e = true) →
            routeFill key val = .plainText (pyStripStr (pyStr val))))) := by
  intro key val
  have hiff : isNoneOrNanStr val = true ↔
      (val = .pynone ∨ ∃ s, val = .pystr s ∧ asciiLower s = "nan") := by
    cases val with
    | pynone => simp [isNoneOrNanStr]
    | pynan => simp [isNoneOrNanStr]
    | pystr s => simp [isNoneOrNanStr]
  refine ⟨hiff, ?_, ?_⟩
  · intro h
    unfold routeFill
    rw [if_pos (hiff.mpr h)]
  · intro h
    have hb : isNoneOrNanStr val = false := by
      rcases hv : isNoneOrNanStr val with _ | _
      · rfl
      · exact absurd (hiff.mp hv) h
    refine ⟨?_, ?_⟩
    · intro he
      unfold routeFill
      rw [if_neg (by simp [hb])]
      simp only [he]
      simp
    · intro hne
      have hsuffiff : (pyEndsWith (asciiUpper key) "_IMG"
          || IMAGE_EXTENSIONS.any
            (fun e => pyEndsWith (asciiLower (pyStripStr (pyStr val))) e)) = true ↔
          (pyEndsWith (asciiUpper key) "_IMG" = true ∨
            ∃ e ∈ IMAGE_EXTENSIONS,
              pyEndsWith (asciiLower (pyStripStr (pyStr val))) e = true) := by
        simp [List.any_eq_true]
      constructor
      · intro hp
        unfold routeFill
        rw [if_neg (by simp [hb])]
        simp only []
        rw [if_neg hne, if_pos (hsuffiff.mpr hp)]
      · intro hp
        unfold routeFill
        rw [if_neg (by simp [hb])]
        simp only []
        rw [if_neg hne, if_neg (by rw [← Bool.not_eq_true] at *; simpa [hsuffiff] using hp)]

theorem routeFill_claim_witness :
    routeFill "Logo_IMG" (.pystr "N/A") = .picture "N/A" ∧
      routeFill "Logo" (.pystr "logo.PNG") = .picture "logo.PNG" ∧
      routeFill "Name" (.pystr "NaN") = .writeEmpty := by
  have hne : ¬((PyValue.pystr "N/A") = .pynone ∨
      ∃ s, (PyValue.pystr "N/A") = .pystr s ∧ asciiLower s = "nan") := by
    rintro (h1 | ⟨s, hs, hl⟩)
    · cases h1
    · cases hs
      exact absurd hl (by decide)
  have hne2 : ¬((PyValue.pystr "logo.PNG") = .pynone ∨
      ∃ s, (PyValue.pystr "logo.PNG") = .pystr s ∧ asciiLower s = "nan") := by
    rintro (h1 | ⟨s, hs, hl⟩)
    · cases h1
    · cases hs
      exact absurd hl (by decide)
  refine ⟨?_, ?_, ?_⟩
  · have h := (((routeFill_claim "Logo_IMG" (.pystr "N/A")).2.2 hne).2
      (by decide)).1 (Or.inl (by decide))
    rw [show pyStripStr (pyStr (.pystr "N/A")) = "N/A" from by decide] at h
    exact h
  · have h := (((routeFill_claim "Logo" (.pystr "logo.PNG")).2.2 hne2).2
      (by decide)).1 (Or.inr ⟨".png", by decide, by decide⟩)
    rw [show pyStripStr (pyStr (.pystr "logo.PNG")) = "logo.PNG" from by decide] at h
    exact h
  · exact (routeFill_claim "Name" (.pystr "NaN")).2.1
      (Or.inr ⟨"NaN", rfl, by decide⟩)

/-! ## src/utils/text_utils.py : set_text_preserve_style (lines 86-176)

The rich-text data model of a shape: a TextFrame holds paragraphs, a
paragraph holds style-tagged runs.  Style records (rPr), paragraph
properties (pPr) and frame properties are opaque strings here: the writer
never inspects them, it only keeps or drops them. -/

structure TextRun where
  style : String
  text : String
deriving DecidableEq

structure Paragraph where
  props : String
  runs : List TextRun
deriving DecidableEq

structure TextFrame where
  bodyPr : String
  paras : List Paragraph
deriving DecidableEq

/-- A pptx shape as seen by the text writer: an optional text frame
(has_text_frame) plus everything else about the shape, untouched here. -/
structure Shape6 where
  textFrame : Option TextFrame
  shapeData : String
deriving DecidableEq

/-- The style record of a run freshly created by paragraph.add_run(): no
explicit rPr element, so it inherits paragraph-level defaults (line 151). -/
def defaultRunStyle : String := ""

/-- Line 119: None and float NaN collapse to the empty string, anything
else stringifies. -/
def pyTextOf : PyValue → String
  | .pynone => ""
  | .pynan => ""
  | .pystr s => s

/-- Lines 122-176 applied to the text frame: if there is a first paragraph,
its first run (if any) keeps its style and receives the new text, every
other run of it is removed, and every paragraph beyond the first is
removed; if the first paragraph has no runs a fresh default-styled run is
added.  Node removal always succeeds in this model (the try/except
fallbacks of lines 129-148 and 154-176 guard exotic parent linkage that
this XML data model rules out, as the claim assumes). -/
def setTextTF (tf : TextFrame) (text : String) : TextFrame :=
  match tf.paras with
  | [] => tf
  | p :: _ =>
      match p.runs with
      | r :: _ =>
          { bodyPr := tf.bodyPr,
            paras := [{ props := p.props, runs := [{ style := r.style, text := text }] }] }
      | [] =>
          { bodyPr := tf.bodyPr,
            paras := [{ props := p.props, runs := [{ style := defaultRunStyle, text := text }] }] }

/-- src/utils/text_utils.py set_text_preserve_style (lines 86-176): a shape
without a text frame is ignored (line 113), otherwise the frame is collapsed
to one paragraph with one run holding the normalized value. -/
def set_text_preserve_style (sh : Shape6) (value : PyValue) : Shape6 :=
  match sh.textFrame with
  | none => sh
  | some tf =>
      { textFrame := some (setTextTF tf (pyTextOf value)), shapeData := sh.shapeData }

/-- C6: after set_text_preserve_style, a shape whose text frame holds at
least one paragraph (OOXML's CT_TextBody requires at least one a:p, and the
claim assumes the underlying model permits node removal) displays exactly
one paragraph with exactly one run whose text is the supplied value; the
first run's style record is preserved when a first run existed, a fresh
default-styled run is created when the first paragraph had no runs, and a
shape without a text frame is left completely unchanged. -/
theorem set_text_preserve_style_claim :
    ∀ (sh : Shape6) (value : PyValue),
      (sh.textFrame = none → set_text_preserve_style sh value = sh) ∧
      (∀ tf p rest, sh.textFrame = some tf → tf.paras = p :: rest →
        ∃ r : TextRun,
          set_text_preserve_style sh value =
            { textFrame := some { bodyPr := tf.bodyPr,
                                  paras := [{ props := p.props, runs := [r] }] },
              shapeData := sh.shapeData } ∧
          r.text = pyTextOf value ∧
          (∀ r0 rs, p.runs = r0 :: rs → r.style = r0.style) ∧
          (p.runs = [] → r.style = defaultRunStyle)) := by
  intro sh value
  constructor
  · intro h
    unfold set_text_preserve_style
    rw [h]
  · intro tf p rest h hp
    obtain ⟨otf, sd⟩ := sh
    have h' : otf = some tf := h
    subst h'
    obtain ⟨bp, paras⟩ := tf
    have hp' : paras = p :: rest := hp
    subst hp'
    obtain ⟨pp, runs⟩ := p
    cases runs with
    | nil =>
        refine ⟨{ style := defaultRunStyle, text := pyTextOf value }, rfl, rfl, ?_, fun _ => rfl⟩
        intro r0 rs h0
        cases h0
    | cons r0 rs =>
        refine ⟨{ style := r0.style, text := pyTextOf value }, rfl, rfl, ?_, ?_⟩
        · intro r1 rs1 h1
          cases h1
          rfl
        · intro h0
          cases h0

theorem set_text_preserve_style_claim_witness :
    ∃ r : TextRun,
      set_text_preserve_style
          ⟨some ⟨"bp", [⟨"pp", [⟨"bold24", "old"⟩, ⟨"italic", "tail"⟩]⟩, ⟨"pp2", []⟩]⟩, "geom"⟩
          (.pystr "new text") =
        ⟨some ⟨"bp", [⟨"pp", [r]⟩]⟩, "geom"⟩ ∧
      r.text = pyTextOf (.pystr "new text") ∧
      (∀ r0 rs, ([⟨"bold24", "old"⟩, ⟨"italic", "tail"⟩] : List TextRun) = r0 :: rs →
        r.style = r0.style) ∧
      (([⟨"bold24", "old"⟩, ⟨"italic", "tail"⟩] : List TextRun) = [] →
        r.style = defaultRunStyle) :=
  (set_text_preserve_style_claim _ (.pystr "new text")).2
    ⟨"bp", [⟨"pp", [⟨"bold24", "old"⟩, ⟨"italic", "tail"⟩]⟩, ⟨"pp2", []⟩]⟩
    ⟨"pp", [⟨"bold24", "old"⟩, ⟨"italic", "tail"⟩]⟩
    [⟨"pp2", []⟩] rfl rfl

/-! ## The shape model for src/utils/image_utils.py and
src/core/template_handler.py fill_template_with_row

A slide shape as the fill loop sees it: a group with child shapes, a shape
carrying a text frame (text boxes, autoshapes with text), a picture, or any
other shape.  `ph` records python-pptx's placeholder capability
(shape.placeholder_format raises for non-placeholders); `Geom` is the
shape's left/top/width/height. -/

structure Geom where
  left : Int
  top : Int
  width : Int
  height : Int
deriving DecidableEq

inductive Shape9 where
  | group (g : Geom) (children : List Shape9)
  | tbox (ph : Bool) (g : Geom) (tf : TextFrame)
  | pic (ph : Bool) (g : Geom) (path : String)
  | other (ph : Bool) (g : Geom) (data : String)

def geomOf : Shape9 → Geom
  | .group g _ => g
  | .tbox _ g _ => g
  | .pic _ g _ => g
  | .other _ g _ => g

/-- Group shapes are never placeholders in python-pptx. -/
def isPlaceholder : Shape9 → Bool
  | .group _ _ => false
  | .tbox ph _ _ => ph
  | .pic ph _ _ => ph
  | .other ph _ _ => ph

def isGroup : Shape9 → Bool
  | .group _ _ => true
  | _ => false

/-- python-pptx TextFrame.text: paragraph texts joined by newlines, each
paragraph the concatenation of its run texts. -/
def tfText (tf : TextFrame) : String :=
  String.intercalate "\n"
    (tf.paras.map (fun p => String.join (p.runs.map (fun r => r.text))))

/-- src/utils/text_utils.py get_text_content (lines 67-83): shapes without
a text frame (groups, pictures, textless shapes) give the empty string. -/
def get_text_content : Shape9 → String
  | .tbox _ _ tf => tfText tf
  | _ => ""

/-- set_text_preserve_style lifted to the shape model: only shapes with a
text frame are touched (text_utils.py line 113). -/
def setTextShape (s : Shape9) (text : String) : Shape9 :=
  match s with
  | .tbox ph g tf => .tbox ph g (setTextTF tf text)
  | s => s

/-- The effect of one fill_picture call on one shape: what the shape
becomes (none means its element was removed from its parent), the new
shapes appended to the slide's top-level shape tree, and the image
relationships added to the slide part (recorded by image path, one per
inserted picture). -/
structure PicResult where
  kept : Option Shape9
  newTop : List Shape9
  addedRels : List String

/-- src/utils/image_utils.py fill_picture (lines 9-68).  `isfile` models
os.path.isfile.  An empty path, or a path that is not an existing file,
returns with no mutation at lines 38-44.  A placeholder shape receives the
picture directly (insert_picture, lines 47-53: the placeholder element is
replaced by a placeholder picture at the same geometry, adding one image
relationship).  Any other shape is replaced by a brand-new picture shape
with the original geometry appended to the slide's shape tree, and the
original element is removed (lines 55-65). -/
def fill_picture (isfile : String → Bool) (img_path : String) (s : Shape9) : PicResult :=
  if img_path = "" then ⟨some s, [], []⟩
  else if !(isfile img_path) then ⟨some s, [], []⟩
  else if isPlaceholder s then ⟨some (.pic true (geomOf s) img_path), [], [img_path]⟩
  else ⟨none, [.pic false (geomOf s) img_path], [img_path]⟩

/-- C8: a picture fill whose path does not resolve to an existing file
returns without raising and without any mutation: the shape is kept
unchanged, nothing is added to the slide's shape tree, and no relationship
entry is created.  (The model is a total function, so the silent-skip path
cannot raise.) -/
theorem fill_picture_claim :
    ∀ (isfile : String → Bool) (img_path : String) (s : Shape9),
      isfile img_path = false →
      fill_picture isfile img_path s = ⟨some s, [], []⟩ := by
  intro isfile p s h
  unfold fill_picture
  by_cases hp : p = ""
  · rw [if_pos hp]
  · rw [if_neg hp, if_pos (by simp [h])]

theorem fill_picture_claim_witness :
    fill_picture (fun _ => false) "images/logo.png"
        (.tbox false ⟨0, 0, 10, 10⟩ ⟨"bp", [⟨"pp", [⟨"st", "Logo_IMG"⟩]⟩]⟩) =
      ⟨some (.tbox false ⟨0, 0, 10, 10⟩ ⟨"bp", [⟨"pp", [⟨"st", "Logo_IMG"⟩]⟩]⟩), [], []⟩ :=
  fill_picture_claim (fun _ => false) "images/logo.png" _ rfl

/-! ## src/core/template_handler.py : fill_template_with_row (lines 14-153) -/

/-- Lines 61-65: build the row dict with normalized keys, skipping keys
that normalize to the empty string; a later assignment to the same
normalized key overwrites the earlier one, as in a Python dict. -/
def upsert (d : List (String × PyValue)) (k : String) (v : PyValue) :
    List (String × PyValue) :=
  if (d.find? (fun q => q.1 == k)).isSome then
    d.map (fun q => if q.1 = k then (k, v) else q)
  else d ++ [(k, v)]

def buildRowDict (row : List (String × PyValue)) : List (String × PyValue) :=
  row.foldl (fun d kv =>
    let kn := normalize_key (some kv.1)
    if kn = "" then d else upsert d kn kv.2) []

def lookupD (d : List (String × PyValue)) (k : String) : Option PyValue :=
  (d.find? (fun q => q.1 == k)).map (fun q => q.2)

/-- Lines 71-82: the shapes to process - every top-level shape, with
exactly one level of group expansion: a group contributes its direct
children instead of itself; nothing deeper is collected. -/
def collectShapes (shapes : List Shape9) : List Shape9 :=
  shapes.foldl (fun acc s =>
    match s with
    | .group _ cs => acc ++ cs
    | s => acc ++ [s]) []

/-- The declarative view of one step of the collection. -/
def expandOne : Shape9 → List Shape9
  | .group _ cs => cs
  | s => [s]

/-- Lines 92-146, one iteration of the processing loop on one collected
shape: compute the shape's canonical key (normalize_key of its text);
continue silently on an empty key; record an unmatched key for diagnostics;
otherwise route the value (routeFill) and act - empty and plain-text
values through the style-preserving writer, picture values through
fill_picture.  Returns (shape effect, unmatched key if any, matched?). -/
def processShape (isfile : String → Bool) (rowd : List (String × PyValue))
    (s : Shape9) : PicResult × Option String × Bool :=
  let key := normalize_key (some (get_text_content s))
  if key = "" then (⟨some s, [], []⟩, none, false)
  else
    match lookupD rowd key with
    | none => (⟨some s, [], []⟩, some key, false)
    | some val =>
        match routeFill key val with
        | .writeEmpty => (⟨some (setTextShape s ""), [], []⟩, none, true)
        | .picture p => (fill_picture isfile p s, none, true)
        | .plainText t => (⟨some (setTextShape s t), [], []⟩, none, true)

/-- The result of one fill pass: the new top-level shape tree, the
unmatched shape keys (diagnostics only), the matched count, and the image
relationships added along the way. -/
structure FillResult where
  shapes : List Shape9
  unmatched : List String
  matched : Nat
  addedRels : List String

/-- How one top-level element of the template evolves during the pass: a
group keeps its own element (groups are expanded at collection time, never
processed themselves) and its direct children are processed through the
aliases collected at lines 73-80, a removed child disappearing from the
group; a non-group top-level shape is replaced by its processed form or
removed. -/
def processTop (isfile : String → Bool) (rowd : List (String × PyValue)) :
    Shape9 → List Shape9
  | .group g cs => [.group g (cs.filterMap (fun c => (processShape isfile rowd c).1.kept))]
  | s => ((processShape isfile rowd s).1.kept).toList

/-- src/core/template_handler.py fill_template_with_row (lines 14-153) for
a template slide with top-level shapes `shapes` and a raw row `row`.  New
picture shapes created by fill_picture's non-placeholder branch are
appended to the slide's shape tree in processing order (python-pptx's
add_picture inserts after the existing shapes). -/
def fill_template_with_row (isfile : String → Bool) (row : List (String × PyValue))
    (shapes : List Shape9) : FillResult :=
  let rowd := buildRowDict row
  let results := (collectShapes shapes).map (processShape isfile rowd)
  { shapes := (shapes.map (processTop isfile rowd)).flatten ++
      (results.map (fun r => r.1.newTop)).flatten,
    unmatched := results.filterMap (fun r => r.2.1),
    matched := (results.filter (fun r => r.2.2)).length,
    addedRels := (results.map (fun r => r.1.addedRels)).flatten }

theorem collectShapes_eq (shapes : List Shape9) :
    collectShapes shapes = (shapes.map expandOne).flatten := by
  suffices h : ∀ (l : List Shape9) (acc : List Shape9),
      l.foldl (fun acc s =>
        match s with
        | .group _ cs => acc ++ cs
        | s => acc ++ [s]) acc = acc ++ (l.map expandOne).flatten by
    simpa using h shapes []
  intro l
  induction l with
  | nil => intro acc; simp
  | cons s rest ih =>
      intro acc
      have hstep : (match s with
          | Shape9.group _ cs => acc ++ cs
          | s => acc ++ [s]) = acc ++ expandOne s := by
        cases s <;> rfl
      simp only [List.foldl_cons, hstep, ih, List.map_cons, List.flatten_cons]
      rw [List.append_assoc]

theorem expandOne_of_not_group (s : Shape9) (h : isGroup s = false) : expandOne s = [s] := by
  cases s with
  | group g cs => simp [isGroup] at h
  | tbox ph g tf => rfl
  | pic ph g p => rfl
  | other ph g d => rfl

theorem processShape_group (isfile : String → Bool) (rowd : List (String × PyValue))
    (c : Shape9) (hc : isGroup c = true) :
    processShape isfile rowd c = (⟨some c, [], []⟩, none, false) := by
  cases c with
  | group g cs => rfl
  | tbox ph g tf => simp [isGroup] at hc
  | pic ph g p => simp [isGroup] at hc
  | other ph g d => simp [isGroup] at hc

/-- C9: the fill pass visits exactly the top-level shapes plus the shapes
directly inside a top-level group (one level of group expansion); a
sub-group collected from inside a group has no text frame, so it is skipped
before any mutation, which keeps every shape nested two or more groups deep
unvisited, unmatched and unmodified; and shapes whose key has no match in
the row are recorded in the diagnostics list and left unchanged - never an
error (the pass is a total function). -/
theorem fill_traversal_claim :
    ∀ (isfile : String → Bool) (row : List (String × PyValue)) (shapes : List Shape9),
      collectShapes shapes = (shapes.map expandOne).flatten ∧
      (∀ x, x ∈ collectShapes shapes ↔
        ((x ∈ shapes ∧ isGroup x = false) ∨
          ∃ g cs, Shape9.group g cs ∈ shapes ∧ x ∈ cs)) ∧
      (∀ c, isGroup c = true →
        processShape isfile (buildRowDict row) c = (⟨some c, [], []⟩, none, false)) ∧
      (∀ g cs, Shape9.group g cs ∈ shapes →
        ∃ cs', Shape9.group g cs' ∈ (fill_template_with_row isfile row shapes).shapes ∧
          ∀ c ∈ cs, isGroup c = true → c ∈ cs') ∧
      (∀ s ∈ collectShapes shapes,
        normalize_key (some (get_text_content s)) ≠ "" →
        lookupD (buildRowDict row) (normalize_key (some (get_text_content s))) = none →
        processShape isfile (buildRowDict row) s =
            (⟨some s, [], []⟩, some (normalize_key (some (get_text_content s))), false) ∧
          normalize_key (some (get_text_content s)) ∈
            (fill_template_with_row isfile row shapes).unmatched) := by
  intro isfile row shapes
  refine ⟨collectShapes_eq shapes, ?_, ?_, ?_, ?_⟩
  · intro x
    rw [collectShapes_eq, List.mem_flatten]
    constructor
    · rintro ⟨l, hl, hx⟩
      obtain ⟨s, hs, rfl⟩ := List.mem_map.mp hl
      cases s with
      | group g cs => exact Or.inr ⟨g, cs, hs, hx⟩
      | tbox ph g tf =>
          rw [show expandOne (Shape9.tbox ph g tf) = [Shape9.tbox ph g tf] from rfl,
            List.mem_singleton] at hx
          subst hx
          exact Or.inl ⟨hs, rfl⟩
      | pic ph g p =>
          rw [show expandOne (Shape9.pic ph g p) = [Shape9.pic ph g p] from rfl,
            List.mem_singleton] at hx
          subst hx
          exact Or.inl ⟨hs, rfl⟩
      | other ph g d =>
          rw [show expandOne (Shape9.other ph g d) = [Shape9.other ph g d] from rfl,
            List.mem_singleton] at hx
          subst hx
          exact Or.inl ⟨hs, rfl⟩
    · rintro (⟨hx, hng⟩ | ⟨g, cs, hg, hx⟩)
      · exact ⟨expandOne x, List.mem_map_of_mem _ hx,
          by rw [expandOne_of_not_group x hng]; exact List.mem_singleton_self x⟩
      · exact ⟨cs, List.mem_map.mpr ⟨Shape9.group g cs, hg, rfl⟩, hx⟩
  · intro c hc
    exact processShape_group isfile (buildRowDict row) c hc
  · intro g cs hg
    refine ⟨cs.filterMap (fun c => (processShape isfile (buildRowDict row) c).1.kept),
      ?_, ?_⟩
    · show Shape9.group g _ ∈
        (shapes.map (processTop isfile (buildRowDict row))).flatten ++ _
      apply List.mem_append_left
      rw [List.mem_flatten]
      refine ⟨processTop isfile (buildRowDict row) (Shape9.group g cs),
        List.mem_map_of_mem _ hg, ?_⟩
      show Shape9.group g _ ∈ [Shape9.group g _]
      exact List.mem_singleton_self _
    · intro c hc hcg
      rw [List.mem_filterMap]
      refine ⟨c, hc, ?_⟩
      rw [processShape_group isfile _ c hcg]
  · intro s hs hk hlook
    have hps : processShape isfile (buildRowDict row) s =
        (⟨some s, [], []⟩, some (normalize_key (some (get_text_content s))), false) := by
      unfold processShape
      simp only [if_neg hk, hlook]
    refine ⟨hps, ?_⟩
    show _ ∈ ((collectShapes shapes).map
      (processShape isfile (buildRowDict row))).filterMap (fun r => r.2.1)
    rw [List.mem_filterMap]
    refine ⟨processShape isfile (buildRowDict row) s, List.mem_map_of_mem _ hs, ?_⟩
    rw [hps]

theorem fill_traversal_claim_witness :
    processShape (fun _ => false)
        (buildRowDict [("Name", PyValue.pystr "Bob")])
        (Shape9.group ⟨0, 0, 5, 5⟩
          [Shape9.tbox false ⟨0, 0, 1, 1⟩ ⟨"bp", [⟨"pp", [⟨"st", "Deep"⟩]⟩]⟩]) =
      (⟨some (Shape9.group ⟨0, 0, 5, 5⟩
          [Shape9.tbox false ⟨0, 0, 1, 1⟩ ⟨"bp", [⟨"pp", [⟨"st", "Deep"⟩]⟩]⟩]), [], []⟩,
        none, false) :=
  (fill_traversal_claim (fun _ => false) [("Name", PyValue.pystr "Bob")] []).2.2.1 _ rfl

/-! ## The XML level: slide shape trees and snapshots
(src/core/template_handler.py lines 156-221, src/utils/slide_utils.py)

A slide's spTree is an ordered list of XML elements.  Shape elements carry
one of python-pptx's shape tags; the tree also holds non-shape children
(p:nvGrpSpPr, p:grpSpPr and an optional trailing p:extLst). -/

inductive XmlElem where
  | elem (tag : String) (attrs : List (String × String)) (children : List XmlElem)

def tagOf : XmlElem → String
  | .elem t _ _ => t

def attrsOf : XmlElem → List (String × String)
  | .elem _ a _ => a

def childrenOf : XmlElem → List XmlElem
  | .elem _ _ c => c

/-- The element tags python-pptx's shape tree iterates over (everything
slide.shapes yields). -/
def shapeTags : List String :=
  ["p:sp", "p:grpSp", "p:graphicFrame", "p:cxnSp", "p:pic", "p:contentPart"]

def isShapeElem (e : XmlElem) : Bool := shapeTags.contains (tagOf e)

/-- python-pptx CT_GroupShape.insert_element_before(elm, 'p:extLst'):
insert before the first child tagged p:extLst, or append at the end when
there is none. -/
def insert_element_before : List XmlElem → XmlElem → List XmlElem
  | [], el => [el]
  | c :: rest, el =>
      if tagOf c = "p:extLst" then el :: c :: rest
      else c :: insert_element_before rest el

/-- src/core/template_handler.py backup_template_shapes (lines 206-221): a
deep copy of every shape element of the slide, in document order
(slide.shapes iterates exactly over the shape-tagged spTree children;
copy.deepcopy of a pure value is the value itself). -/
def backup_template_shapes (spTree : List XmlElem) : List XmlElem :=
  spTree.filter isShapeElem

/-- src/core/template_handler.py restore_template_shapes (lines 156-203):
remove every current shape element from the spTree (lines 196-198), then
insert a fresh deep copy of each snapshot element before the p:extLst
end-marker (lines 201-203).  The snapshot argument is read, never written:
in this pure model restore is a function of the tree and the snapshot. -/
def restore_template_shapes (spTree : List XmlElem) (snapshot : List XmlElem) :
    List XmlElem :=
  snapshot.foldl insert_element_before (spTree.filter (fun e => !(isShapeElem e)))

/-- Any number of (mutate, restore) rounds from a given snapshot: each
round first mutates the tree (the fill and the clone steps of the driver
loop) and then restores from the snapshot. -/
def fillCloneRestoreCycles (snap : List XmlElem)
    (muts : List (List XmlElem → List XmlElem)) (spTree : List XmlElem) : List XmlElem :=
  muts.foldl (fun t f => restore_template_shapes (f t) snap) spTree

theorem shape_tag_ne_extLst (e : XmlElem) (h : isShapeElem e = true) :
    tagOf e ≠ "p:extLst" := by
  intro he
  rw [isShapeElem, he] at h
  exact absurd h (by decide)

theorem insert_element_before_frame :
    ∀ (A B : List XmlElem) (el : XmlElem),
      (∀ e ∈ A, tagOf e ≠ "p:extLst") →
      (B = [] ∨ ∃ e B', B = e :: B' ∧ tagOf e = "p:extLst") →
      insert_element_before (A ++ B) el = A ++ el :: B := by
  intro A
  induction A with
  | nil =>
      intro B el _ hB
      rcases hB with rfl | ⟨e, B', rfl, he⟩
      · rfl
      · simp only [List.nil_append]
        rw [insert_element_before, if_pos he]
  | cons a A ih =>
      intro B el hA hB
      simp only [List.cons_append]
      rw [insert_element_before, if_neg (hA a (List.mem_cons_self a A))]
      rw [ih B el (fun e he => hA e (List.mem_cons_of_mem a he)) hB]

theorem restore_fold :
    ∀ (S A B : List XmlElem),
      (∀ e ∈ A, tagOf e ≠ "p:extLst") →
      (B = [] ∨ ∃ e B', B = e :: B' ∧ tagOf e = "p:extLst") →
      (∀ e ∈ S, isShapeElem e = true) →
      S.foldl insert_element_before (A ++ B) = A ++ S ++ B := by
  intro S
  induction S with
  | nil => intro A B _ _ _; simp
  | cons s S ih =>
      intro A B hA hB hS
      simp only [List.foldl_cons]
      rw [insert_element_before_frame A B s hA hB]
      have : A ++ s :: B = (A ++ [s]) ++ B := by simp
      rw [this, ih (A ++ [s]) B ?_ hB (fun e he => hS e (List.mem_cons_of_mem s he))]
      · simp
      · intro e he
        rcases List.mem_append.mp he with h1 | h2
        · exact hA e h1
        · rw [List.mem_singleton.mp h2]
          exact shape_tag_ne_extLst s (hS s (List.mem_cons_self s S))

theorem backup_frame (A S B : List XmlElem)
    (hA : ∀ e ∈ A, isShapeElem e = false)
    (hS : ∀ e ∈ S, isShapeElem e = true)
    (hB : ∀ e ∈ B, isShapeElem e = false) :
    backup_template_shapes (A ++ S ++ B) = S := by
  unfold backup_template_shapes
  rw [List.append_assoc, List.filter_append, List.filter_append]
  rw [List.filter_eq_nil_iff.mpr (fun e he => by simp [hA e he])]
  rw [List.filter_eq_self.mpr hS]
  rw [List.filter_eq_nil_iff.mpr (fun e he => by simp [hB e he])]
  simp

theorem clear_shapes (A T B : List XmlElem)
    (hA : ∀ e ∈ A, isShapeElem e = false)
    (hT : ∀ e ∈ T, isShapeElem e = true)
    (hB : ∀ e ∈ B, isShapeElem e = false) :
    (A ++ T ++ B).filter (fun e => !(isShapeElem e)) = A ++ B := by
  rw [List.append_assoc, List.filter_append, List.filter_append]
  rw [List.filter_eq_self.mpr (fun e he => by simp [hA e he])]
  rw [List.filter_eq_nil_iff.mpr (fun e he => by simp [hT e he])]
  rw [List.filter_eq_self.mpr (fun e he => by simp [hB e he])]
  simp

theorem restore_frame (A S B T : List XmlElem)
    (hA1 : ∀ e ∈ A, isShapeElem e = false)
    (hA2 : ∀ e ∈ A, tagOf e ≠ "p:extLst")
    (hS : ∀ e ∈ S, isShapeElem e = true)
    (hB1 : ∀ e ∈ B, isShapeElem e = false)
    (hB2 : B = [] ∨ ∃ e B', B = e :: B' ∧ tagOf e = "p:extLst")
    (hT : ∀ e ∈ T, isShapeElem e = true) :
    restore_template_shapes (A ++ T ++ B) S = A ++ S ++ B := by
  unfold restore_template_shapes
  rw [clear_shapes A T B hA1 hT hB1]
  rw [restore_fold S A B hA2 hB2 hS]

/-- C1: for a slide whose spTree is A ++ S ++ B - non-shape children A
before the shapes (none of them an extLst end-marker), the shape elements
S, and the optional trailing part B that is empty or starts with the
p:extLst end-marker - the snapshot taken by backup_template_shapes is
exactly S; after any fill/clone mutation of the shape region (any
replacement of S by other shape elements T) a restore_template_shapes call
rebuilds exactly the snapshot-time tree; the snapshot read back after a
restore is unchanged (it is never consumed: restore only deep-copies its
entries); and any number of repeated (mutate, restore) cycles still ends
in the snapshot-time tree after each restore. -/
theorem restore_template_claim :
    ∀ (A S B T : List XmlElem),
      (∀ e ∈ A, isShapeElem e = false) →
      (∀ e ∈ A, tagOf e ≠ "p:extLst") →
      (∀ e ∈ S, isShapeElem e = true) →
      (∀ e ∈ B, isShapeElem e = false) →
      (B = [] ∨ ∃ e B', B = e :: B' ∧ tagOf e = "p:extLst") →
      (∀ e ∈ T, isShapeElem e = true) →
      backup_template_shapes (A ++ S ++ B) = S ∧
      restore_template_shapes (A ++ T ++ B) (backup_template_shapes (A ++ S ++ B)) =
        A ++ S ++ B ∧
      backup_template_shapes
          (restore_template_shapes (A ++ T ++ B) (backup_template_shapes (A ++ S ++ B))) =
        backup_template_shapes (A ++ S ++ B) ∧
      (∀ muts : List (List XmlElem → List XmlElem),
        (∀ f ∈ muts, ∀ t : List XmlElem,
          (∃ T1, (∀ e ∈ T1, isShapeElem e = true) ∧ t = A ++ T1 ++ B) →
          ∃ T2, (∀ e ∈ T2, isShapeElem e = true) ∧ f t = A ++ T2 ++ B) →
        fillCloneRestoreCycles (backup_template_shapes (A ++ S ++ B)) muts
          (A ++ S ++ B) = A ++ S ++ B) := by
  intro A S B T hA1 hA2 hS hB1 hB2 hT
  have hback := backup_frame A S B hA1 hS hB1
  have hrest : ∀ T1, (∀ e ∈ T1, isShapeElem e = true) →
      restore_template_shapes (A ++ T1 ++ B) S = A ++ S ++ B :=
    fun T1 hT1 => restore_frame A S B T1 hA1 hA2 hS hB1 hB2 hT1
  refine ⟨hback, ?_, ?_, ?_⟩
  · rw [hback]
    exact hrest T hT
  · rw [hback, hrest T hT, hback]
  · intro muts
    rw [hback]
    induction muts with
    | nil => intro _; rfl
    | cons f fs ih =>
        intro hmuts
        show fillCloneRestoreCycles S fs
          (restore_template_shapes (f (A ++ S ++ B)) S) = A ++ S ++ B
        obtain ⟨T2, hT2, hf⟩ :=
          hmuts f (List.mem_cons_self f fs) (A ++ S ++ B) ⟨S, hS, rfl⟩
        rw [hf, hrest T2 hT2]
        exact ih (fun g hg => hmuts g (List.mem_cons_of_mem f hg))

theorem restore_template_claim_witness :
    backup_template_shapes
        ([XmlElem.elem "p:nvGrpSpPr" [] [], XmlElem.elem "p:grpSpPr" [] []] ++
          [XmlElem.elem "p:sp" [] [], XmlElem.elem "p:pic" [("r:embed", "rId2")] []] ++
          [XmlElem.elem "p:extLst" [] []]) =
      [XmlElem.elem "p:sp" [] [], XmlElem.elem "p:pic" [("r:embed", "rId2")] []] ∧
    restore_template_shapes
        ([XmlElem.elem "p:nvGrpSpPr" [] [], XmlElem.elem "p:grpSpPr" [] []] ++
          [XmlElem.elem "p:sp" [("a", "mutated")] []] ++
          [XmlElem.elem "p:extLst" [] []])
        (backup_template_shapes
          ([XmlElem.elem "p:nvGrpSpPr" [] [], XmlElem.elem "p:grpSpPr" [] []] ++
            [XmlElem.elem "p:sp" [] [], XmlElem.elem "p:pic" [("r:embed", "rId2")] []] ++
            [XmlElem.elem "p:extLst" [] []])) =
      [XmlElem.elem "p:nvGrpSpPr" [] [], XmlElem.elem "p:grpSpPr" [] []] ++
        [XmlElem.elem "p:sp" [] [], XmlElem.elem "p:pic" [("r:embed", "rId2")] []] ++
        [XmlElem.elem "p:extLst" [] []] := by
  have h := restore_template_claim
    [XmlElem.elem "p:nvGrpSpPr" [] [], XmlElem.elem "p:grpSpPr" [] []]
    [XmlElem.elem "p:sp" [] [], XmlElem.elem "p:pic" [("r:embed", "rId2")] []]
    [XmlElem.elem "p:extLst" [] []]
    [XmlElem.elem "p:sp" [("a", "mutated")] []]
    (by
      intro e he
      simp only [List.mem_cons, List.not_mem_nil, or_false] at he
      rcases he with rfl | rfl <;> rfl)
    (by
      intro e he
      simp only [List.mem_cons, List.not_mem_nil, or_false] at he
      rcases he with rfl | rfl <;> decide)
    (by
      intro e he
      simp only [List.mem_cons, List.not_mem_nil, or_false] at he
      rcases he with rfl | rfl <;> rfl)
    (by
      intro e he
      simp only [List.mem_cons, List.not_mem_nil, or_false] at he
      rcases he with rfl
      rfl)
    (Or.inr ⟨XmlElem.elem "p:extLst" [] [], [], rfl, rfl⟩)
    (by
      intro e he
      simp only [List.mem_cons, List.not_mem_nil, or_false] at he
      rcases he with rfl
      rfl)
  exact ⟨h.1, h.2.1⟩

/-! ## src/utils/slide_utils.py : _remap_relationships_in_element (13-79)

Relationship tables are per part: a mapping from rId strings to a
descriptor (reltype, target, external flag).  For an internal relationship
the target names the target part, for an external one it is the URI; the
code copies whichever the source descriptor holds, so one String field
covers both. -/

structure Rel where
  reltype : String
  isExt : Bool
  target : String
deriving DecidableEq

/-- A destination part's relationship table together with its fresh-id
supply (ids are "rId" followed by a number). -/
structure RelTable where
  nextN : Nat
  entries : List (String × Rel)
deriving DecidableEq

def ridName (n : Nat) : String := "rId" ++ toString n

/-- Modelled from the spec: python-pptx's Part.relate_to is not part of
this repository's src/; spec 4.4 describes it as creating a new
relationship in the destination part's table on every call ("every
occurrence independently creates a new relationship entry") and returning
the newly created id. -/
def relate_to (t : RelTable) (r : Rel) : String × RelTable :=
  (ridName t.nextN, ⟨t.nextN + 1, t.entries ++ [(ridName t.nextN, r)]⟩)

def lookupRel (rels : List (String × Rel)) (rid : String) : Option Rel :=
  (rels.find? (fun q => q.1 == rid)).map (fun q => q.2)

/-- The two reference-attribute kinds scanned (lines 44-47): r:embed for
embedded resources and r:id for generic relationships (Clark-notation
qualified names in the source; kept symbolic here). -/
def attrQnames : List String := ["r:embed", "r:id"]

def attrGet : List (String × String) → String → Option String
  | [], _ => none
  | q :: qs, name => if q.1 = name then some q.2 else attrGet qs name

def attrSet : List (String × String) → String → String → List (String × String)
  | [], _, _ => []
  | q :: qs, name, v =>
      if q.1 = name then (name, v) :: attrSet qs name v else q :: attrSet qs name v

/-- Lines 52-79 for one node and one attribute kind: read the attribute;
skip when it is absent or empty (Python falsy, line 55) or when its value
is not a key of the source part's table (line 57); otherwise create the
corresponding relationship in the destination table - external targets
keep the external flag, internal targets the target part, both the same
reltype (lines 63-76) - and rewrite the attribute to the new id (line 79). -/
def remapAttr (src : List (String × Rel)) (name : String)
    (attrs : List (String × String)) (t : RelTable) :
    List (String × String) × RelTable :=
  match attrGet attrs name with
  | none => (attrs, t)
  | some rid =>
      if rid = "" then (attrs, t)
      else
        match lookupRel src rid with
        | none => (attrs, t)
        | some rel =>
            let res := relate_to t
              (if rel.isExt then ⟨rel.reltype, true, rel.target⟩
                else ⟨rel.reltype, false, rel.target⟩)
            (attrSet attrs name res.1, res.2)

/-- One node's attribute pass: r:embed first, then r:id (line 51). -/
def remapNodeAttrs (src : List (String × Rel))
    (attrs : List (String × String)) (t : RelTable) :
    List (String × String) × RelTable :=
  let r1 := remapAttr src "r:embed" attrs t
  remapAttr src "r:id" r1.1 r1.2

mutual
/-- src/utils/slide_utils.py _remap_relationships_in_element (lines 13-79):
el.iter() walks the whole subtree in document order (the node itself, then
its descendants left to right), processing both reference attributes of
every node. -/
def remapElem (src : List (String × Rel)) :
    XmlElem → RelTable → XmlElem × RelTable
  | .elem tag attrs children, t =>
      let ra := remapNodeAttrs src attrs t
      let rc := remapChildren src children ra.2
      (.elem tag ra.1 rc.1, rc.2)
def remapChildren (src : List (String × Rel)) :
    List XmlElem → RelTable → List XmlElem × RelTable
  | [], t => ([], t)
  | c :: cs, t =>
      let r1 := remapElem src c t
      let r2 := remapChildren src cs r1.2
      (r1.1 :: r2.1, r2.2)
end

/-! ### The declarative description the claim states (spec 4.4)

occ* collects, in the order the walk meets them, the source descriptors of
the remappable occurrences: an attribute that is present, non-empty and a
key of the source table.  exp* rewrites exactly those occurrences to the
consecutively numbered fresh ids, leaving everything else unchanged. -/

def occAttr (src : List (String × Rel)) (attrs : List (String × String))
    (name : String) : List Rel :=
  match attrGet attrs name with
  | none => []
  | some rid =>
      if rid = "" then []
      else
        match lookupRel src rid with
        | none => []
        | some rel => [rel]

mutual
def occElem (src : List (String × Rel)) : XmlElem → List Rel
  | .elem _ attrs children =>
      occAttr src attrs "r:embed" ++ occAttr src attrs "r:id" ++ occChildren src children
def occChildren (src : List (String × Rel)) : List XmlElem → List Rel
  | [] => []
  | c :: cs => occElem src c ++ occChildren src cs
end

def expAttr (src : List (String × Rel)) (name : String)
    (attrs : List (String × String)) (n : Nat) :
    List (String × String) × Nat :=
  match attrGet attrs name with
  | none => (attrs, n)
  | some rid =>
      if rid = "" then (attrs, n)
      else
        match lookupRel src rid with
        | none => (attrs, n)
        | some _ => (attrSet attrs name (ridName n), n + 1)

def expNodeAttrs (src : List (String × Rel))
    (attrs : List (String × String)) (n : Nat) :
    List (String × String) × Nat :=
  let r1 := expAttr src "r:embed" attrs n
  expAttr src "r:id" r1.1 r1.2

mutual
def expElem (src : List (String × Rel)) : XmlElem → Nat → XmlElem × Nat
  | .elem tag attrs children, n =>
      let ra := expNodeAttrs src attrs n
      let rc := expChildren src children ra.2
      (.elem tag ra.1 rc.1, rc.2)
def expChildren (src : List (String × Rel)) : List XmlElem → Nat → List XmlElem × Nat
  | [], n => ([], n)
  | c :: cs, n =>
      let r1 := expElem src c n
      let r2 := expChildren src cs r1.2
      (r1.1 :: r2.1, r2.2)
end

/-- The new destination entries: the collected source descriptors paired
with the consecutively numbered fresh ids starting at n. -/
def tagRels (n : Nat) : List Rel → List (String × Rel)
  | [] => []
  | r :: rs => (ridName n, r) :: tagRels (n + 1) rs

/-! ### Supporting lemmas for the remapper -/

theorem relCopy_eq (r : Rel) :
    (if r.isExt then (⟨r.reltype, true, r.target⟩ : Rel)
      else ⟨r.reltype, false, r.target⟩) = r := by
  obtain ⟨rt, ex, tg⟩ := r
  cases ex
  · rfl
  · rfl

theorem tagRels_append (xs : List Rel) :
    ∀ (n : Nat) (ys : List Rel),
      tagRels n (xs ++ ys) = tagRels n xs ++ tagRels (n + xs.length) ys := by
  induction xs with
  | nil => intro n ys; simp [tagRels]
  | cons x xs ih =>
      intro n ys
      have h3 : n + 1 + xs.length = n + (xs.length + 1) := by omega
      calc tagRels n (x :: xs ++ ys)
          = (ridName n, x) :: tagRels (n + 1) (xs ++ ys) := rfl
        _ = (ridName n, x) :: (tagRels (n + 1) xs ++ tagRels (n + 1 + xs.length) ys) := by
              rw [ih]
        _ = tagRels n (x :: xs) ++ tagRels (n + (x :: xs).length) ys := by
              rw [h3]
              rfl

theorem tagRels_length (xs : List Rel) : ∀ n : Nat, (tagRels n xs).length = xs.length := by
  induction xs with
  | nil => intro n; rfl
  | cons x xs ih => intro n; simp [tagRels, ih]

theorem attrGet_attrSet_ne (attrs : List (String × String)) (name name' v : String)
    (h : name ≠ name') : attrGet (attrSet attrs name v) name' = attrGet attrs name' := by
  induction attrs with
  | nil => rfl
  | cons q qs ih =>
      by_cases hq : q.1 = name
      · rw [attrSet, if_pos hq, attrGet, if_neg h, attrGet, if_neg (hq ▸ h), ih]
      · rw [attrSet, if_neg hq, attrGet, attrGet]
        by_cases hq' : q.1 = name'
        · rw [if_pos hq', if_pos hq']
        · rw [if_neg hq', if_neg hq', ih]

theorem expAttr_fst_attrGet_ne (src : List (String × Rel)) (name name' : String)
    (attrs : List (String × String)) (n : Nat) (h : name ≠ name') :
    attrGet (expAttr src name attrs n).1 name' = attrGet attrs name' := by
  rcases hga : attrGet attrs name with _ | rid
  · simp [expAttr, hga]
  · by_cases hr : rid = ""
    · simp [expAttr, hga, hr]
    · rcases hlr : lookupRel src rid with _ | rel
      · simp [expAttr, hga, hr, hlr]
      · simp only [expAttr, hga, hr, hlr]
        exact attrGet_attrSet_ne attrs name name' _ h

theorem occAttr_expAttr (src : List (String × Rel)) (attrs : List (String × String))
    (n : Nat) :
    occAttr src (expAttr src "r:embed" attrs n).1 "r:id" = occAttr src attrs "r:id" := by
  unfold occAttr
  rw [expAttr_fst_attrGet_ne src "r:embed" "r:id" attrs n (by decide)]

theorem expAttr_snd (src : List (String × Rel)) (name : String)
    (attrs : List (String × String)) (n : Nat) :
    (expAttr src name attrs n).2 = n + (occAttr src attrs name).length := by
  rcases hga : attrGet attrs name with _ | rid
  · simp [expAttr, occAttr, hga]
  · by_cases hr : rid = ""
    · simp [expAttr, occAttr, hga, hr]
    · rcases hlr : lookupRel src rid with _ | rel
      · simp [expAttr, occAttr, hga, hr, hlr]
      · simp [expAttr, occAttr, hga, hr, hlr]

theorem remapAttr_spec (src : List (String × Rel)) (name : String)
    (attrs : List (String × String)) (t : RelTable) :
    remapAttr src name attrs t =
      ((expAttr src name attrs t.nextN).1,
        ⟨t.nextN + (occAttr src attrs name).length,
          t.entries ++ tagRels t.nextN (occAttr src attrs name)⟩) := by
  obtain ⟨n, es⟩ := t
  rcases hga : attrGet attrs name with _ | rid
  · simp [remapAttr, expAttr, occAttr, hga, tagRels]
  · by_cases hr : rid = ""
    · simp [remapAttr, expAttr, occAttr, hga, hr, tagRels]
    · rcases hlr : lookupRel src rid with _ | rel
      · simp [remapAttr, expAttr, occAttr, hga, hr, hlr, tagRels]
      · simp [remapAttr, expAttr, occAttr, hga, hr, hlr, relate_to, relCopy_eq, tagRels]

theorem remapNodeAttrs_spec (src : List (String × Rel))
    (attrs : List (String × String)) (t : RelTable) :
    remapNodeAttrs src attrs t =
      ((expNodeAttrs src attrs t.nextN).1,
        ⟨t.nextN + (occAttr src attrs "r:embed" ++ occAttr src attrs "r:id").length,
          t.entries ++
            tagRels t.nextN
              (occAttr src attrs "r:embed" ++ occAttr src attrs "r:id")⟩) := by
  unfold remapNodeAttrs expNodeAttrs
  simp only [remapAttr_spec, occAttr_expAttr, expAttr_snd, tagRels_append,
    List.length_append, List.append_assoc, Nat.add_assoc]

theorem expNodeAttrs_snd (src : List (String × Rel)) (attrs : List (String × String))
    (n : Nat) :
    (expNodeAttrs src attrs n).2 =
      n + (occAttr src attrs "r:embed" ++ occAttr src attrs "r:id").length := by
  unfold expNodeAttrs
  simp only [expAttr_snd, occAttr_expAttr, List.length_append]
  omega

mutual
theorem expElem_snd (src : List (String × Rel)) :
    ∀ (el : XmlElem) (n : Nat), (expElem src el n).2 = n + (occElem src el).length
  | .elem tag attrs children, n => by
      show (expChildren src children (expNodeAttrs src attrs n).2).2 = _
      rw [expChildren_snd src children, expNodeAttrs_snd]
      show _ = n + (occAttr src attrs "r:embed" ++ occAttr src attrs "r:id" ++
        occChildren src children).length
      simp only [List.length_append]
      omega
theorem expChildren_snd (src : List (String × Rel)) :
    ∀ (cs : List XmlElem) (n : Nat), (expChildren src cs n).2 = n + (occChildren src cs).length
  | [], n => rfl
  | c :: cs, n => by
      show (expChildren src cs (expElem src c n).2).2 = _
      rw [expChildren_snd src cs, expElem_snd src c]
      show _ = n + (occElem src c ++ occChildren src cs).length
      simp only [List.length_append]
      omega
end

mutual
theorem remapElem_spec (src : List (String × Rel)) :
    ∀ (el : XmlElem) (t : RelTable),
      remapElem src el t =
        ((expElem src el t.nextN).1,
          ⟨t.nextN + (occElem src el).length,
            t.entries ++ tagRels t.nextN (occElem src el)⟩)
  | .elem tag attrs children, t => by
      have hc := remapChildren_spec src children
        ⟨t.nextN + (occAttr src attrs "r:embed" ++ occAttr src attrs "r:id").length,
          t.entries ++ tagRels t.nextN
            (occAttr src attrs "r:embed" ++ occAttr src attrs "r:id")⟩
      simp only [remapElem, expElem, occElem]
      simp only [remapNodeAttrs_spec src attrs t]
      rw [hc]
      rw [expNodeAttrs_snd src attrs t.nextN]
      simp only [tagRels_append, List.append_assoc, List.length_append, Nat.add_assoc]
theorem remapChildren_spec (src : List (String × Rel)) :
    ∀ (cs : List XmlElem) (t : RelTable),
      remapChildren src cs t =
        ((expChildren src cs t.nextN).1,
          ⟨t.nextN + (occChildren src cs).length,
            t.entries ++ tagRels t.nextN (occChildren src cs)⟩)
  | [], t => by
      obtain ⟨n, es⟩ := t
      simp [remapChildren, expChildren, occChildren, tagRels]
  | c :: cs, t => by
      have hcs := remapChildren_spec src cs
        ⟨t.nextN + (occElem src c).length,
          t.entries ++ tagRels t.nextN (occElem src c)⟩
      simp only [remapChildren, expChildren, occChildren]
      simp only [remapElem_spec src c t]
      rw [hcs]
      rw [expElem_snd src c t.nextN]
      simp only [tagRels_append, List.append_assoc, List.length_append, Nat.add_assoc]
end

theorem expAttr_id (src : List (String × Rel)) (name : String)
    (attrs : List (String × String)) (n : Nat)
    (h : occAttr src attrs name = []) : expAttr src name attrs n = (attrs, n) := by
  rcases hga : attrGet attrs name with _ | rid
  · simp [expAttr, hga]
  · by_cases hr : rid = ""
    · simp [expAttr, hga, hr]
    · rcases hlr : lookupRel src rid with _ | rel
      · simp [expAttr, hga, hr, hlr]
      · simp [occAttr, hga, hr, hlr] at h

mutual
theorem expElem_id (src : List (String × Rel)) :
    ∀ (el : XmlElem) (n : Nat), occElem src el = [] → (expElem src el n).1 = el
  | .elem tag attrs children, n => by
      intro h
      rw [occElem] at h
      obtain ⟨h', h3⟩ := List.append_eq_nil.mp h
      obtain ⟨h1, h2⟩ := List.append_eq_nil.mp h'
      simp only [expElem, expNodeAttrs]
      rw [expAttr_id src "r:embed" attrs n h1]
      rw [expAttr_id src "r:id" attrs n h2]
      rw [expChildren_id src children n h3]
theorem expChildren_id (src : List (String × Rel)) :
    ∀ (cs : List XmlElem) (n : Nat),
      occChildren src cs = [] → (expChildren src cs n).1 = cs
  | [], n => by intro _; rfl
  | c :: cs, n => by
      intro h
      rw [occChildren] at h
      rcases List.append_eq_nil.mp h with ⟨h1, h2⟩
      simp only [expChildren]
      rw [expElem_snd src c n, h1]
      simp only [List.length_nil, Nat.add_zero]
      rw [expElem_id src c n h1, expChildren_id src cs n h2]
end

/-- C3: the remapper walk rewrites each r:embed / r:id occurrence whose
value is a key of the source part's relationship table to a newly created
id in the destination table: occurrences are met in document order and the
k-th one receives the k-th fresh id, each appending its own new entry
carrying the source descriptor unchanged (same reltype and target, the
external flag preserved) - so two occurrences of the same old id yield two
separate destination entries with the same target (the table grows by
exactly the occurrence count); occurrences whose value is not in the
source table, and nodes without these attributes, are left untouched
(a subtree with no such occurrence passes through the remapper
unchanged).  Part.relate_to is modelled from spec 4.4 (fresh entry per
call), as python-pptx is outside src/. -/
theorem remap_relationships_claim :
    ∀ (src : List (String × Rel)) (el : XmlElem) (t : RelTable),
      remapElem src el t =
        ((expElem src el t.nextN).1,
          ⟨t.nextN + (occElem src el).length,
            t.entries ++ tagRels t.nextN (occElem src el)⟩) ∧
      ((remapElem src el t).2.entries).length =
        t.entries.length + (occElem src el).length ∧
      (occElem src el = [] → remapElem src el t = (el, t)) := by
  intro src el t
  refine ⟨remapElem_spec src el t, ?_, ?_⟩
  · rw [remapElem_spec src el t]
    simp [List.length_append, tagRels_length]
  · intro h
    rw [remapElem_spec src el t, h]
    obtain ⟨n, es⟩ := t
    rw [expElem_id src el n h]
    simp [tagRels]

theorem remap_relationships_claim_witness :
    remapElem [("rId5", ⟨"image", false, "media/image1.png"⟩)]
        (XmlElem.elem "p:sp" [("a", "b")] [])
        ⟨3, [("rId1", ⟨"slideLayout", false, "layout1"⟩)]⟩ =
      (XmlElem.elem "p:sp" [("a", "b")] [],
        ⟨3, [("rId1", ⟨"slideLayout", false, "layout1"⟩)]⟩) :=
  (remap_relationships_claim [("rId5", ⟨"image", false, "media/image1.png"⟩)]
    (XmlElem.elem "p:sp" [("a", "b")] [])
    ⟨3, [("rId1", ⟨"slideLayout", false, "layout1"⟩)]⟩).2.2 (by decide)

/-! ## src/core/ppt_builder.py : build_ppt_from_excel (lines 80-137)

The presentation document: the ordered slide-id list (sldIdLst, one rId per
slide) and the presentation part's relationship table mapping each rId to
the slide part it references (its spTree), plus the fresh-rId supply. -/

structure Prs where
  sldIdLst : List String
  prsRels : List (String × List XmlElem)
  nextN : Nat

def lookupSlide (rels : List (String × List XmlElem)) (rid : String) :
    Option (List XmlElem) :=
  (rels.find? (fun q => q.1 == rid)).map (fun q => q.2)

/-- src/utils/slide_utils.py duplicate_slide (lines 82-148) at the document
level: a new slide is created and immediately appended to the slide
sequence under a fresh rId, its content produced from the source slide
(add_slide on the same layout, then per-shape deep copy plus relationship
remapping - the content production is abstracted as dupContent; the
remapping itself is the subject of remapElem). -/
def duplicate_slide (dupContent : List XmlElem → List XmlElem) (prs : Prs)
    (srcTree : List XmlElem) : Prs :=
  { sldIdLst := prs.sldIdLst ++ [ridName prs.nextN],
    prsRels := prs.prsRels ++ [(ridName prs.nextN, dupContent srcTree)],
    nextN := prs.nextN + 1 }

/-- The per-row loop of build_ppt_from_excel (lines 111-121): fill the
template in place, duplicate the filled template, restore the template
from the snapshot for the next row. -/
def buildLoop {Row : Type} (fill : Row → List XmlElem → List XmlElem)
    (dupContent : List XmlElem → List XmlElem) (snap : List XmlElem) :
    List Row → Prs → List XmlElem → Prs × List XmlElem
  | [], prs, tmpl => (prs, tmpl)
  | r :: rs, prs, tmpl =>
      buildLoop fill dupContent snap rs
        (duplicate_slide dupContent prs (fill r tmpl))
        (restore_template_shapes (fill r tmpl) snap)

/-- src/core/ppt_builder.py build_ppt_from_excel (lines 80-137), once the
two input files are materialized: `rows` is the tabular source in order,
`fill` the in-place per-row fill (its shape-level behavior lives in the
Shape9 model), `dupContent` the slide-content duplication.  The
empty-source check (lines 88-89) raises before the template slide is even
read.  Lines 125-130 then drop the template's relationship and delete its
sldIdLst entry; the surrounding try/except turns a failure there into a
no-op ([] case).  "IndexError"/"KeyError" model the uncaught Python
errors for a document with no first slide (unreachable for well-formed
packages). -/
def build_ppt_from_excel {Row : Type} (fill : Row → List XmlElem → List XmlElem)
    (dupContent : List XmlElem → List XmlElem) (prs : Prs) (rows : List Row) :
    Except String Prs :=
  if rows.isEmpty then .error "엑셀에 데이터가 없습니다." else
  match prs.sldIdLst with
  | [] => .error "IndexError"
  | rid0 :: _ =>
      match lookupSlide prs.prsRels rid0 with
      | none => .error "KeyError"
      | some tmpl =>
          let res := buildLoop fill dupContent (backup_template_shapes tmpl) rows prs tmpl
          match res.1.sldIdLst with
          | [] => .ok res.1
          | ridT :: restIds =>
              .ok { sldIdLst := restIds,
                    prsRels := res.1.prsRels.filter (fun q => q.1 != ridT),
                    nextN := res.1.nextN }

/-- The rIds handed out to the generated slides, in creation order. -/
def genRids : Nat → Nat → List String
  | _, 0 => []
  | n, Nat.succ k => ridName n :: genRids (n + 1) k

/-- The slide contents the loop produces, one per row in row order: the
i-th generated slide holds the duplicated content of the template filled
with row i, the template being restored from the snapshot in between. -/
def specContents {Row : Type} (fill : Row → List XmlElem → List XmlElem)
    (dupContent : List XmlElem → List XmlElem) (snap : List XmlElem) :
    List Row → List XmlElem → List (List XmlElem)
  | [], _ => []
  | r :: rs, tmpl =>
      dupContent (fill r tmpl) ::
        specContents fill dupContent snap rs (restore_template_shapes (fill r tmpl) snap)

theorem genRids_mem : ∀ (k n : Nat) (r : String),
    r ∈ genRids n k → ∃ i, i < k ∧ r = ridName (n + i) := by
  intro k
  induction k with
  | zero => intro n r h; cases h
  | succ k ih =>
      intro n r h
      rw [genRids] at h
      rcases List.mem_cons.mp h with rfl | h2
      · exact ⟨0, Nat.succ_pos k, by rw [Nat.add_zero]⟩
      · obtain ⟨i, hi, hr⟩ := ih (n + 1) r h2
        exact ⟨i + 1, Nat.succ_lt_succ hi, by rw [hr]; congr 1; omega⟩

theorem buildLoop_spec {Row : Type} (fill : Row → List XmlElem → List XmlElem)
    (dupContent : List XmlElem → List XmlElem) (snap : List XmlElem) :
    ∀ (rows : List Row) (prs : Prs) (tmpl : List XmlElem),
      (buildLoop fill dupContent snap rows prs tmpl).1.sldIdLst =
        prs.sldIdLst ++ genRids prs.nextN rows.length ∧
      (buildLoop fill dupContent snap rows prs tmpl).1.prsRels =
        prs.prsRels ++ (genRids prs.nextN rows.length).zip
          (specContents fill dupContent snap rows tmpl) ∧
      (buildLoop fill dupContent snap rows prs tmpl).1.nextN =
        prs.nextN + rows.length := by
  intro rows
  induction rows with
  | nil => intro prs tmpl; simp [buildLoop, genRids, specContents]
  | cons r rs ih =>
      intro prs tmpl
      obtain ⟨h1, h2, h3⟩ := ih (duplicate_slide dupContent prs (fill r tmpl))
        (restore_template_shapes (fill r tmpl) snap)
      refine ⟨?_, ?_, ?_⟩
      · rw [show buildLoop fill dupContent snap (r :: rs) prs tmpl =
          buildLoop fill dupContent snap rs
            (duplicate_slide dupContent prs (fill r tmpl))
            (restore_template_shapes (fill r tmpl) snap) from rfl]
        rw [h1]
        simp [duplicate_slide, genRids, specContents]
      · rw [show buildLoop fill dupContent snap (r :: rs) prs tmpl =
          buildLoop fill dupContent snap rs
            (duplicate_slide dupContent prs (fill r tmpl))
            (restore_template_shapes (fill r tmpl) snap) from rfl]
        rw [h2]
        simp [duplicate_slide, genRids, specContents]
      · rw [show buildLoop fill dupContent snap (r :: rs) prs tmpl =
          buildLoop fill dupContent snap rs
            (duplicate_slide dupContent prs (fill r tmpl))
            (restore_template_shapes (fill r tmpl) snap) from rfl]
        rw [h3]
        simp [duplicate_slide]
        omega

/-- C2: a run over N >= 1 rows of a single-slide template document yields
exactly N generated slides, one per row, in input row order (the i-th
generated slide holds the duplicate of the template filled with row i),
and the original template slide - the document's first slide - is removed
from the slide sequence together with its presentation-part relationship,
leaving only the generated slides.  The freshness hypothesis says the new
rIds differ from the template's, which python-pptx's id allocation
guarantees. -/
theorem build_ppt_claim :
    ∀ {Row : Type} (fill : Row → List XmlElem → List XmlElem)
      (dupContent : List XmlElem → List XmlElem)
      (prs : Prs) (rows : List Row) (rid0 : String) (tmpl : List XmlElem),
      prs.sldIdLst = [rid0] →
      lookupSlide prs.prsRels rid0 = some tmpl →
      rows ≠ [] →
      (∀ i ∈ List.range rows.length, ridName (prs.nextN + i) ≠ rid0) →
      ∃ out : Prs,
        build_ppt_from_excel fill dupContent prs rows = .ok out ∧
        out.sldIdLst = genRids prs.nextN rows.length ∧
        out.sldIdLst.length = rows.length ∧
        lookupSlide out.prsRels rid0 = none ∧
        out.prsRels = prs.prsRels.filter (fun q => q.1 != rid0) ++
          (genRids prs.nextN rows.length).zip
            (specContents fill dupContent (backup_template_shapes tmpl) rows tmpl) := by
  intro Row fill dupContent prs rows rid0 tmpl hslides hlook hne hfresh
  have hfresh' : ∀ r ∈ genRids prs.nextN rows.length, r ≠ rid0 := by
    intro r hr
    obtain ⟨i, hi, rfl⟩ := genRids_mem rows.length prs.nextN r hr
    exact hfresh i (List.mem_range.mpr hi)
  obtain ⟨h1, h2, h3⟩ := buildLoop_spec fill dupContent
    (backup_template_shapes tmpl) rows prs tmpl
  have hlen : ∀ (k n : Nat), (genRids n k).length = k := by
    intro k
    induction k with
    | zero => intro n; rfl
    | succ k ih => intro n; simp [genRids, ih]
  have hzip_keys : ∀ q ∈ (genRids prs.nextN rows.length).zip
      (specContents fill dupContent (backup_template_shapes tmpl) rows tmpl),
      q.1 ≠ rid0 := by
    intro q hq
    exact hfresh' q.1 (List.of_mem_zip hq).1
  rw [hslides] at h1
  have hsld : (buildLoop fill dupContent (backup_template_shapes tmpl)
      rows prs tmpl).1.sldIdLst = rid0 :: genRids prs.nextN rows.length := h1
  unfold build_ppt_from_excel
  rw [if_neg (by simp [hne])]
  rw [hslides]
  simp only [hlook, hsld]
  have hfz : List.filter (fun q => q.1 != rid0)
      ((genRids prs.nextN rows.length).zip
        (specContents fill dupContent (backup_template_shapes tmpl) rows tmpl)) =
      (genRids prs.nextN rows.length).zip
        (specContents fill dupContent (backup_template_shapes tmpl) rows tmpl) :=
    List.filter_eq_self.mpr (fun q hq => by simpa using hzip_keys q hq)
  refine ⟨_, rfl, rfl, ?_, ?_, ?_⟩
  · exact hlen rows.length prs.nextN
  · show lookupSlide ((buildLoop fill dupContent (backup_template_shapes tmpl)
        rows prs tmpl).1.prsRels.filter (fun q => q.1 != rid0)) rid0 = none
    unfold lookupSlide
    rw [Option.map_eq_none']
    rw [List.find?_eq_none]
    intro q hq
    have := List.of_mem_filter hq
    simpa using this
  · show (buildLoop fill dupContent (backup_template_shapes tmpl)
        rows prs tmpl).1.prsRels.filter (fun q => q.1 != rid0) = _
    rw [h2, List.filter_append, hfz]

theorem build_ppt_claim_witness :
    ∃ out : Prs,
      build_ppt_from_excel (fun (_ : Nat) (t : List XmlElem) => t)
          (fun t => t) ⟨["rId9"], [("rId9", [])], 1⟩ [7] = .ok out ∧
      out.sldIdLst = genRids 1 1 ∧
      out.sldIdLst.length = 1 ∧
      lookupSlide out.prsRels "rId9" = none ∧
      out.prsRels = ([("rId9", [])] : List (String × List XmlElem)).filter
          (fun q => q.1 != "rId9") ++
        (genRids 1 1).zip
          (specContents (fun (_ : Nat) (t : List XmlElem) => t) (fun t => t)
            (backup_template_shapes []) [7] []) :=
  build_ppt_claim (fun (_ : Nat) (t : List XmlElem) => t) (fun t => t)
    ⟨["rId9"], [("rId9", [])], 1⟩ [7] "rId9" [] rfl rfl (by decide)
    (by decide)

/-- C7: a run whose tabular source has zero rows aborts with the
RuntimeError of ppt_builder.py line 89 before any slide is produced and
before any mutation: the equality holds for every fill, every duplication
function and every input document, so nothing is filled, cloned or saved. -/
theorem build_empty_claim :
    ∀ {Row : Type} (fill : Row → List XmlElem → List XmlElem)
      (dupContent : List XmlElem → List XmlElem) (prs : Prs),
      build_ppt_from_excel fill dupContent prs ([] : List Row) =
        .error "엑셀에 데이터가 없습니다." :=
  fun _ _ _ => rfl
